import Mathlib

/-
Verification of the rule-compilation layer (`check/definitions.go`) and the
CLI driver (`main.go`) of the vale prose linter, against its natural-language
specification.

Shallow embedding conventions:
* YAML/Go `interface{}` values are modelled by the inductive `Val`
  (Go numbers are modelled as `Int`; the `float64` `Grade` field of
  `Readability` is likewise modelled as `Int` — no claim depends on
  fractional values).
* Go maps `map[string]interface{}` are modelled as association lists
  (`Generic`).  Go map indexing `g["k"]` is `lookupKey` (a missing key
  yields `none`, which also stands for Go's `nil` interface), `delete`
  is `eraseKey`.
* A compiled `*regexp.Regexp` is modelled by its pattern source string;
  success of `regexp.Compile` is an oracle parameter where the code
  branches on it.
* A Go type assertion `x.(T)` that fails panics; panics are modelled by a
  distinguished result constructor (`ValidateResult.panics`,
  `BuildResult.panicked`, or `none` in intermediate steps).
* `mapstructure.Decode(generic, &def)` is modelled by per-struct decoders:
  a key present in the mapping (matched case-insensitively, as mapstructure
  does) overwrites the corresponding field when its value has the field's
  type and otherwise yields a decode error; an absent key (or a `nil`
  value) leaves the field's current value.  mapstructure reports errors as
  `* '<Field>' <detail>` lines; `DecodeErr` carries the field and detail,
  and the model reports the first erring field in struct order.
-/

namespace Vale

/-- A YAML / Go `interface{}` value as it appears in a decoded rule file. -/
inductive Val where
  | null
  | str (s : String)
  | int (n : Int)
  | bool (b : Bool)
  | list (xs : List Val)
  | map (m : List (String × Val))

/-- A raw rule definition mapping (`baseCheck = map[string]interface{}`). -/
abbrev Generic := List (String × Val)

/-- Go map indexing `g[key]`: the first binding of `key`, if any. -/
def lookupKey : Generic → String → Option Val
  | [], _ => none
  | (k, v) :: rest, key => if k = key then some v else lookupKey rest key

/-- Go `delete(g, key)`: remove the binding of `key`. -/
def eraseKey : Generic → String → Generic
  | [], _ => []
  | (k, v) :: rest, key =>
    if k = key then eraseKey rest key else (k, v) :: eraseKey rest key

/-- ASCII lowercasing of a character (models Go `strings.ToLower` /
`strings.EqualFold` on the ASCII keys and field names that occur here). -/
def charLower (c : Char) : Char :=
  if c.toNat ≥ 65 ∧ c.toNat ≤ 90 then Char.ofNat (c.toNat + 32) else c

/-- ASCII lowercasing of a string. -/
def lowerStr (s : String) : String := ⟨s.data.map charLower⟩

/-- mapstructure's case-insensitive match of a mapping key against a struct
field: the first binding whose lowercased key equals `fieldName`. -/
def lookupField (g : Generic) (fieldName : String) : Option Val :=
  match g with
  | [] => none
  | (k, v) :: rest =>
    if lowerStr k = fieldName then some v else lookupField rest fieldName

/-- Configuration errors (`core.NewE201FromPosition` / `core.NewE201FromTarget`). -/
inductive ConfigError where
  | fromPosition (message path : String) (line : Nat)
  | fromTarget (message key path : String)
deriving DecidableEq

/-- The ten extension points (rule kinds), in source order. -/
def extensionPoints : List String :=
  ["capitalization", "conditional", "consistency", "existence", "occurrence",
   "repetition", "substitution", "readability", "spelling", "sequence"]

/-- Go `fmt.Sprintf("%v", xs)` for a `[]string`. -/
def goFmtV (xs : List String) : String :=
  "[" ++ String.intercalate " " xs ++ "]"

/-- Outcome of `validateDefinition`: `nil`, a returned error, or a panic of
the `point.(string)` type assertion. -/
inductive ValidateResult where
  | ok
  | err (e : ConfigError)
  | panics
deriving DecidableEq

/-- `validateDefinition` from `check/definitions.go`: requires an `extends`
key naming a known extension point and a `message` key.  The value of
`extends` is read through the type assertion `point.(string)`, which panics
when the value is not a string. -/
def validateDefinition (generic : Generic) (name path : String) : ValidateResult :=
  match lookupKey generic "extends" with
  | none =>
    .err (.fromPosition
      ("'" ++ name ++ "' is missing the required 'extends' key.") path 1)
  | some point =>
    match point with
    | .str key =>
      if key ∈ extensionPoints then
        match lookupKey generic "message" with
        | none =>
          .err (.fromPosition
            ("'" ++ name ++ "' is missing the required 'message' key.") path 1)
        | some _ => .ok
      else
        .err (.fromTarget
          ("'extends' key must be one of " ++ goFmtV extensionPoints ++ ".")
          key path)
    | _ => .panics

/-- Whether a mapping value is a string (whether the `point.(string)` type
assertion in `validateDefinition` succeeds). -/
def isStringVal : Val → Bool
  | .str _ => true
  | _ => false

/-- The three alternatives of the level regular expression, in source order. -/
def levelAlternatives : List String := ["suggestion", "warning", "error"]

/-- Whether Go's `regexp.MustCompile("(?:suggestion|warning|error)$").MatchString s`
holds: the pattern is anchored only at the end, so it matches exactly when
one of the three alternatives is a suffix of `s`. -/
def matchesLevelRegex (s : String) : Bool :=
  levelAlternatives.any (fun t => decide (t.data <:+ s.data))

/-- `isValidLevel` from `check/definitions.go` (`none` = accepted, `some e`
= the returned `error`). -/
def isValidLevel (s : String) : Option String :=
  if matchesLevelRegex s then none
  else some "key 'level' must be 'suggestion', 'warning', or 'error'"

/-- Bridge lemma: the modelled regular-expression match holds iff one of the
three alternatives is a suffix of the input. -/
theorem matchesLevelRegex_iff (s : String) :
    matchesLevelRegex s = true ↔ ∃ t ∈ levelAlternatives, t.data <:+ s.data := by
  simp [matchesLevelRegex, List.any_eq_true]

/-- Claim C3 (counterexample): the string `"xerror"` is not one of the three
level tokens, yet `isValidLevel` accepts it, because the source regular
expression `(?:suggestion|warning|error)$` is anchored only at the end of the
string.  This refutes the claim that exactly the three tokens are accepted. -/
theorem isValidLevel_accepts_nonlevel_suffix :
    isValidLevel "xerror" = none ∧ "xerror" ∉ levelAlternatives := by
  constructor
  · rfl
  · decide

/-- Claim C3 (amended): `isValidLevel` accepts a string iff one of the three
tokens `suggestion`, `warning`, `error` is a suffix of it (in particular each
exact token is accepted); every other string is rejected with the error
"key 'level' must be 'suggestion', 'warning', or 'error'". -/
theorem isValidLevel_suffix_characterization (s : String) :
    (isValidLevel s = none ↔ ∃ t ∈ levelAlternatives, t.data <:+ s.data) ∧
    (∀ t ∈ levelAlternatives, isValidLevel t = none) ∧
    ((¬ ∃ t ∈ levelAlternatives, t.data <:+ s.data) →
      isValidLevel s = some "key 'level' must be 'suggestion', 'warning', or 'error'") := by
  refine ⟨?_, ?_, ?_⟩
  · constructor
    · intro h
      rw [← matchesLevelRegex_iff]
      by_contra hb
      unfold isValidLevel at h
      rw [if_neg hb] at h
      exact Option.noConfusion h
    · intro h
      unfold isValidLevel
      rw [if_pos ((matchesLevelRegex_iff s).mpr h)]
  · intro t ht
    fin_cases ht <;> rfl
  · intro h
    unfold isValidLevel
    rw [if_neg (fun hb => h ((matchesLevelRegex_iff s).mp hb))]

/-- Claim C3 witness: the amended characterization applied to the concrete
string `"bogus"`, which ends in none of the tokens and is rejected. -/
theorem isValidLevel_suffix_characterization_witness :
    isValidLevel "bogus" = some "key 'level' must be 'suggestion', 'warning', or 'error'" :=
  (isValidLevel_suffix_characterization "bogus").2.2 (by decide)

/-- Claim C2 (counterexample): a mapping whose `extends` value is the YAML
integer `3` (not a string).  The integer is not one of the ten kinds, so the
claim demands a configuration error, but `validateDefinition` instead panics
on the `point.(string)` type assertion and returns nothing. -/
theorem validateDefinition_nonstring_extends_panics :
    validateDefinition [("extends", Val.int 3), ("message", Val.str "m")] "rule" "style.yml"
      = ValidateResult.panics ∧
    ∀ e, validateDefinition [("extends", Val.int 3), ("message", Val.str "m")] "rule" "style.yml"
      ≠ ValidateResult.err e := by
  refine ⟨rfl, ?_⟩
  intro e h
  rw [show validateDefinition [("extends", Val.int 3), ("message", Val.str "m")] "rule" "style.yml"
        = ValidateResult.panics from rfl] at h
  exact ValidateResult.noConfusion h

/-- Claim C2 (amended): `validateDefinition` returns a configuration error
iff the mapping has no `extends` key, or the `extends` value is a string that
is not one of the ten kinds, or the `extends` value is a valid kind string
and the mapping has no `message` key; it returns nil iff `extends` is a valid
kind string and `message` is present; and when the `extends` value exists but
is not a string it panics on the type assertion instead. -/
theorem validateDefinition_characterization (g : Generic) (n p : String) :
    ((∃ e, validateDefinition g n p = .err e) ↔
      (lookupKey g "extends" = none ∨
       (∃ s, lookupKey g "extends" = some (.str s) ∧ s ∉ extensionPoints) ∨
       (∃ s, lookupKey g "extends" = some (.str s) ∧ s ∈ extensionPoints ∧
         lookupKey g "message" = none))) ∧
    (validateDefinition g n p = .ok ↔
      (∃ s, lookupKey g "extends" = some (.str s) ∧ s ∈ extensionPoints ∧
        lookupKey g "message" ≠ none)) ∧
    (validateDefinition g n p = .panics ↔
      (∃ v, lookupKey g "extends" = some v ∧ isStringVal v = false)) := by
  rcases hE : lookupKey g "extends" with _ | v
  · simp [validateDefinition, hE]
  · cases v with
    | str s =>
      by_cases hs : s ∈ extensionPoints
      · rcases hM : lookupKey g "message" with _ | m
        · simp [validateDefinition, hE, hM, hs, isStringVal]
        · simp [validateDefinition, hE, hM, hs, isStringVal]
      · simp [validateDefinition, hE, hs, isStringVal]
    | null => simp [validateDefinition, hE, isStringVal]
    | int m => simp [validateDefinition, hE, isStringVal]
    | bool b => simp [validateDefinition, hE, isStringVal]
    | list xs => simp [validateDefinition, hE, isStringVal]
    | map m => simp [validateDefinition, hE, isStringVal]

/-- Claim C2 witness: the characterization applied to a concrete well-formed
existence rule mapping, which validates to nil. -/
theorem validateDefinition_characterization_witness :
    validateDefinition [("extends", Val.str "existence"), ("message", Val.str "m")] "r" "s.yml"
      = ValidateResult.ok :=
  (validateDefinition_characterization
      [("extends", Val.str "existence"), ("message", Val.str "m")] "r" "s.yml").2.1.mpr
    ⟨"existence", rfl, by decide, by intro h; exact Option.noConfusion h⟩

/-- Modelled from the spec: `core.Action` (the `action` header field),
`{ name: string, params: [string] }`; `core` is outside the shown sources. -/
structure CoreAction where
  Name : String
  Params : List String
deriving DecidableEq

/-- `Definition` holds the common attributes of rule definitions. -/
structure Definition where
  Action : CoreAction
  Code : Bool
  Description : String
  Extends : String
  Level : String
  Limit : Int
  Link : String
  Message : String
  Name : String
  Scope : String
deriving DecidableEq

/-- A mapstructure decode error: mapstructure reports failures as
`* '<Field>' <detail>` lines, so the model carries the Go field name and the
detail text. -/
structure DecodeErr where
  field : String
  detail : String
deriving DecidableEq

abbrev DecodeM := Except DecodeErr

/-- Decode a `string` struct field: an absent (or nil) key keeps the current
value, a string value overwrites it, anything else is a decode error. -/
def decodeStrField (g : Generic) (key goField : String) (cur : String) : DecodeM String :=
  match lookupField g key with
  | none => .ok cur
  | some .null => .ok cur
  | some (.str s) => .ok s
  | some _ => .error ⟨goField, "expected type 'string'"⟩

/-- Decode a `bool` struct field. -/
def decodeBoolField (g : Generic) (key goField : String) (cur : Bool) : DecodeM Bool :=
  match lookupField g key with
  | none => .ok cur
  | some .null => .ok cur
  | some (.bool b) => .ok b
  | some _ => .error ⟨goField, "expected type 'bool'"⟩

/-- Decode an `int` struct field. -/
def decodeIntField (g : Generic) (key goField : String) (cur : Int) : DecodeM Int :=
  match lookupField g key with
  | none => .ok cur
  | some .null => .ok cur
  | some (.int n) => .ok n
  | some _ => .error ⟨goField, "expected type 'int'"⟩

/-- Coerce a list of mapping values to strings, as mapstructure does when
decoding into `[]string`. -/
def strListVals : List Val → Option (List String)
  | [] => some []
  | .str s :: rest => (strListVals rest).map (fun tl => s :: tl)
  | _ :: _ => none

/-- Decode a `[]string` struct field. -/
def decodeStrListField (g : Generic) (key goField : String) (cur : List String) :
    DecodeM (List String) :=
  match lookupField g key with
  | none => .ok cur
  | some .null => .ok cur
  | some (.list xs) =>
    match strListVals xs with
    | some ss => .ok ss
    | none => .error ⟨goField, "expected type 'string' for slice element"⟩
  | some _ => .error ⟨goField, "expected a list"⟩

/-- Coerce a mapping to string/string pairs, as mapstructure does when
decoding into `map[string]string`. -/
def strMapVals : List (String × Val) → Option (List (String × String))
  | [] => some []
  | (k, .str s) :: rest => (strMapVals rest).map (fun tl => (k, s) :: tl)
  | _ :: _ => none

/-- Decode a `map[string]string` struct field. -/
def decodeStrMapField (g : Generic) (key goField : String)
    (cur : List (String × String)) : DecodeM (List (String × String)) :=
  match lookupField g key with
  | none => .ok cur
  | some .null => .ok cur
  | some (.map m) =>
    match strMapVals m with
    | some ps => .ok ps
    | none => .error ⟨goField, "expected type 'string' for map value"⟩
  | some _ => .error ⟨goField, "expected a map"⟩

/-- Decode the `core.Action` struct field (modelled from the spec, see
`CoreAction`). -/
def decodeActionField (g : Generic) (key : String) (cur : CoreAction) : DecodeM CoreAction :=
  match lookupField g key with
  | none => .ok cur
  | some .null => .ok cur
  | some (.map m) => do
    let nm ← decodeStrField m "name" "Action.Name" cur.Name
    let ps ← decodeStrListField m "params" "Action.Params" cur.Params
    .ok ⟨nm, ps⟩
  | some _ => .error ⟨"Action", "expected a map"⟩

/-- Decode the squashed `Definition` header fields from a rule mapping. -/
def decodeDefinition (g : Generic) (d : Definition) : DecodeM Definition := do
  let action ← decodeActionField g "action" d.Action
  let code ← decodeBoolField g "code" "Code" d.Code
  let descr ← decodeStrField g "description" "Description" d.Description
  let ext ← decodeStrField g "extends" "Extends" d.Extends
  let lvl ← decodeStrField g "level" "Level" d.Level
  let lim ← decodeIntField g "limit" "Limit" d.Limit
  let link ← decodeStrField g "link" "Link" d.Link
  let msg ← decodeStrField g "message" "Message" d.Message
  let nm ← decodeStrField g "name" "Name" d.Name
  let sc ← decodeStrField g "scope" "Scope" d.Scope
  .ok ⟨action, code, descr, ext, lvl, lim, link, msg, nm, sc⟩

/-- The Go zero value of `core.Action`. -/
def actionZero : CoreAction := ⟨"", []⟩

/-- The Go zero value of `Definition`. -/
def definitionZero : Definition := ⟨actionZero, false, "", "", "", 0, "", "", "", ""⟩

/-- `Existence` checks for the presence of Tokens. -/
structure Existence where
  Definition : Definition
  Append : Bool
  Ignorecase : Bool
  Nonword : Bool
  Raw : List String
  Tokens : List String
deriving DecidableEq

def existenceZero : Existence := ⟨definitionZero, false, false, false, [], []⟩

def decodeExistence (g : Generic) (d : Existence) : DecodeM Existence := do
  let base ← decodeDefinition g d.Definition
  let app ← decodeBoolField g "append" "Append" d.Append
  let ign ← decodeBoolField g "ignorecase" "Ignorecase" d.Ignorecase
  let non ← decodeBoolField g "nonword" "Nonword" d.Nonword
  let raw ← decodeStrListField g "raw" "Raw" d.Raw
  let toks ← decodeStrListField g "tokens" "Tokens" d.Tokens
  .ok ⟨base, app, ign, non, raw, toks⟩

/-- `Substitution` switches the values of Swap for its keys. -/
structure Substitution where
  Definition : Definition
  Ignorecase : Bool
  Nonword : Bool
  Swap : List (String × String)
  POS : String
deriving DecidableEq

def substitutionZero : Substitution := ⟨definitionZero, false, false, [], ""⟩

def decodeSubstitution (g : Generic) (d : Substitution) : DecodeM Substitution := do
  let base ← decodeDefinition g d.Definition
  let ign ← decodeBoolField g "ignorecase" "Ignorecase" d.Ignorecase
  let non ← decodeBoolField g "nonword" "Nonword" d.Nonword
  let swap ← decodeStrMapField g "swap" "Swap" d.Swap
  let pos ← decodeStrField g "pos" "POS" d.POS
  .ok ⟨base, ign, non, swap, pos⟩

/-- `Occurrence` counts the number of times Token appears. -/
structure Occurrence where
  Definition : Definition
  Ignorecase : Bool
  Max : Int
  Min : Int
  Token : String
deriving DecidableEq

def occurrenceZero : Occurrence := ⟨definitionZero, false, 0, 0, ""⟩

def decodeOccurrence (g : Generic) (d : Occurrence) : DecodeM Occurrence := do
  let base ← decodeDefinition g d.Definition
  let ign ← decodeBoolField g "ignorecase" "Ignorecase" d.Ignorecase
  let mx ← decodeIntField g "max" "Max" d.Max
  let mn ← decodeIntField g "min" "Min" d.Min
  let tok ← decodeStrField g "token" "Token" d.Token
  .ok ⟨base, ign, mx, mn, tok⟩

/-- `Repetition` looks for repeated uses of Tokens. -/
structure Repetition where
  Definition : Definition
  Max : Int
  Ignorecase : Bool
  Alpha : Bool
  Tokens : List String
deriving DecidableEq

def repetitionZero : Repetition := ⟨definitionZero, 0, false, false, []⟩

def decodeRepetition (g : Generic) (d : Repetition) : DecodeM Repetition := do
  let base ← decodeDefinition g d.Definition
  let mx ← decodeIntField g "max" "Max" d.Max
  let ign ← decodeBoolField g "ignorecase" "Ignorecase" d.Ignorecase
  let alpha ← decodeBoolField g "alpha" "Alpha" d.Alpha
  let toks ← decodeStrListField g "tokens" "Tokens" d.Tokens
  .ok ⟨base, mx, ign, alpha, toks⟩

/-- `Consistency` ensures that the keys and values of Either don't both exist. -/
structure Consistency where
  Definition : Definition
  Nonword : Bool
  Ignorecase : Bool
  Either : List (String × String)
deriving DecidableEq

def consistencyZero : Consistency := ⟨definitionZero, false, false, []⟩

def decodeConsistency (g : Generic) (d : Consistency) : DecodeM Consistency := do
  let base ← decodeDefinition g d.Definition
  let non ← decodeBoolField g "nonword" "Nonword" d.Nonword
  let ign ← decodeBoolField g "ignorecase" "Ignorecase" d.Ignorecase
  let eith ← decodeStrMapField g "either" "Either" d.Either
  .ok ⟨base, non, ign, eith⟩

/-- `Conditional` ensures that the presence of First ensures the presence of
Second.  `exceptRe` is the unexported compiled exception regular expression,
modelled by its pattern source. -/
structure Conditional where
  Definition : Definition
  Ignorecase : Bool
  First : String
  Second : String
  Exceptions : List String
  exceptRe : Option String
deriving DecidableEq

def conditionalZero : Conditional := ⟨definitionZero, false, "", "", [], none⟩

def decodeConditional (g : Generic) (d : Conditional) : DecodeM Conditional := do
  let base ← decodeDefinition g d.Definition
  let ign ← decodeBoolField g "ignorecase" "Ignorecase" d.Ignorecase
  let fst ← decodeStrField g "first" "First" d.First
  let snd ← decodeStrField g "second" "Second" d.Second
  let ex ← decodeStrListField g "exceptions" "Exceptions" d.Exceptions
  .ok ⟨base, ign, fst, snd, ex, d.exceptRe⟩

/-- `Capitalization` checks the case of a string.  The unexported matcher
closure `Check` is installed by the manager (outside the shown sources) and
is omitted from the model; `exceptRe` is modelled by its pattern source. -/
structure Capitalization where
  Definition : Definition
  Match : String
  Style : String
  Exceptions : List String
  Indicators : List String
  exceptRe : Option String
deriving DecidableEq

def capitalizationZero : Capitalization := ⟨definitionZero, "", "", [], [], none⟩

def decodeCapitalization (g : Generic) (d : Capitalization) : DecodeM Capitalization := do
  let base ← decodeDefinition g d.Definition
  let mtch ← decodeStrField g "match" "Match" d.Match
  let style ← decodeStrField g "style" "Style" d.Style
  let ex ← decodeStrListField g "exceptions" "Exceptions" d.Exceptions
  let ind ← decodeStrListField g "indicators" "Indicators" d.Indicators
  .ok ⟨base, mtch, style, ex, ind, d.exceptRe⟩

/-- `Readability` checks the reading grade level of text.  The `float64`
field `Grade` is modelled as `Int` (no claim depends on fractional grades). -/
structure Readability where
  Definition : Definition
  Metrics : List String
  Grade : Int
deriving DecidableEq

def readabilityZero : Readability := ⟨definitionZero, [], 0⟩

def decodeReadability (g : Generic) (d : Readability) : DecodeM Readability := do
  let base ← decodeDefinition g d.Definition
  let mets ← decodeStrListField g "metrics" "Metrics" d.Metrics
  let grade ← decodeIntField g "grade" "Grade" d.Grade
  .ok ⟨base, mets, grade⟩

/-- `Spelling` checks text against a Hunspell dictionary.  `Filters` holds
compiled regular expressions, modelled by their pattern sources; `exceptRe`
is the unexported compiled exception pattern. -/
structure Spelling where
  Definition : Definition
  Aff : String
  Custom : Bool
  Dic : String
  Filters : List String
  Ignore : List String
  Exceptions : List String
  Threshold : Int
  exceptRe : Option String
deriving DecidableEq

def spellingZero : Spelling := ⟨definitionZero, "", false, "", [], [], [], 0, none⟩

def decodeSpelling (g : Generic) (d : Spelling) : DecodeM Spelling := do
  let base ← decodeDefinition g d.Definition
  let aff ← decodeStrField g "aff" "Aff" d.Aff
  let cust ← decodeBoolField g "custom" "Custom" d.Custom
  let dic ← decodeStrField g "dic" "Dic" d.Dic
  -- `Filters` has type `[]*regexp.Regexp`; mapstructure cannot decode raw
  -- mapping values into compiled regular expressions, so a present non-nil
  -- `filters` key is a decode error (the builder normally deletes the key
  -- before decoding).
  let filt ← (match lookupField g "filters" with
    | none => Except.ok d.Filters
    | some .null => Except.ok d.Filters
    | some _ => Except.error (⟨"Filters", "expected type '*regexp.Regexp'"⟩ : DecodeErr))
  let ign ← decodeStrListField g "ignore" "Ignore" d.Ignore
  let ex ← decodeStrListField g "exceptions" "Exceptions" d.Exceptions
  let th ← decodeIntField g "threshold" "Threshold" d.Threshold
  .ok ⟨base, aff, cust, dic, filt, ign, ex, th, d.exceptRe⟩

/-- `NLPToken` represents a token of text with NLP-related attributes.  `re`
is the unexported compiled pattern (set by the manager, outside the shown
sources); `optional` is the unexported skip marker. -/
structure NLPToken where
  Pattern : String
  Negate : Bool
  Tag : String
  Skip : Int
  re : Option String
  optional : Bool
deriving DecidableEq

def nlpTokenZero : NLPToken := ⟨"", false, "", 0, none, false⟩

/-- `mapstructure.Decode(token, &tok)` for a single sequence token: the error
is ignored in the source, so fields whose keys are absent or ill-typed keep
their zero values. -/
def decodeNLPToken (v : Val) : NLPToken :=
  match v with
  | .map m =>
    { Pattern := (match lookupField m "pattern" with | some (.str s) => s | _ => "")
      Negate := (match lookupField m "negate" with | some (.bool b) => b | _ => false)
      Tag := (match lookupField m "tag" with | some (.str s) => s | _ => "")
      Skip := (match lookupField m "skip" with | some (.int n) => n | _ => 0)
      re := none
      optional := false }
  | _ => nlpTokenZero

/-- `Sequence` looks for a user-defined sequence of tokens.  The unexported
runtime fields `needsTagging` and `history` are zero at build time and
omitted. -/
structure Sequence where
  Definition : Definition
  Ignorecase : Bool
  Tokens : List NLPToken
deriving DecidableEq

def sequenceZero : Sequence := ⟨definitionZero, false, []⟩

def decodeSequence (g : Generic) (d : Sequence) : DecodeM Sequence := do
  let base ← decodeDefinition g d.Definition
  let ign ← decodeBoolField g "ignorecase" "Ignorecase" d.Ignorecase
  -- The `tokens` key is always deleted from the mapping before this decode
  -- runs, so `Tokens` keeps the list built by the expansion loop.
  .ok ⟨base, ign, d.Tokens⟩

/-- `validator.Validate(def)`: the only validation tag in the source is
`validate:"level"` on `Definition.Level`, wired to `isValidLevel` by `init`.
validator.v2 reports failures as `Definition.<Field>: <message>`; the model
carries the field and message. -/
def validatorValidate (d : Definition) : Option DecodeErr :=
  match isValidLevel d.Level with
  | some msg => some ⟨"Level", msg⟩
  | none => none

/-- `readStructureError`: turn a mapstructure error (always of the shape
`* '<Field>' <detail>`) into an E201 keyed by the lowercased field. -/
def readStructureError (e : DecodeErr) (name path : String) : ConfigError :=
  .fromTarget ("Failed to parse '" ++ name ++ "': " ++ e.detail) (lowerStr e.field) path

/-- `readValueError`: turn a validator error (always of the shape
`Definition.<Field>: <message>`) into an E201 keyed by the lowercased field. -/
def readValueError (e : DecodeErr) (name path : String) : ConfigError :=
  .fromTarget ("Failed to parse '" ++ name ++ "': " ++ e.detail) (lowerStr e.field) path

/-- A rule registered with the manager by one of the `add*Check` methods. -/
inductive AddedCheck where
  | existence (name : String) (d : Existence)
  | substitution (name : String) (d : Substitution)
  | occurrence (name : String) (d : Occurrence)
  | repetition (name : String) (d : Repetition)
  | consistency (name : String) (d : Consistency)
  | conditional (name : String) (d : Conditional)
  | capitalization (name : String) (d : Capitalization)
  | readability (name : String) (d : Readability)
  | spelling (name : String) (d : Spelling)
  | sequence (name : String) (d : Sequence)
deriving DecidableEq

/-- Outcome of one `checkBuilders` entry: the returned error together with the
rules added to the manager, or a panic. -/
inductive BuildResult where
  | ret (err : Option ConfigError) (added : List AddedCheck)
  | panicked
deriving DecidableEq

/-- `checkBuilders["existence"]`.  `addErr` is an oracle for the result of
`mgr.addExistenceCheck` (manager code is outside the shown sources; per the
spec it may itself fail with a configuration error). -/
def existenceBuilder (name path : String) (addErr : Option ConfigError)
    (g : Generic) : BuildResult :=
  match decodeExistence g existenceZero with
  | .error e => .ret (some (readStructureError e name path)) []
  | .ok d =>
    match validatorValidate d.Definition with
    | some e => .ret (some (readValueError e name path)) []
    | none =>
      match addErr with
      | some e => .ret (some e) []
      | none => .ret none [.existence name d]

/-- `checkBuilders["substitution"]`, with the same `addErr` oracle for
`mgr.addSubstitutionCheck`. -/
def substitutionBuilder (name path : String) (addErr : Option ConfigError)
    (g : Generic) : BuildResult :=
  match decodeSubstitution g substitutionZero with
  | .error e => .ret (some (readStructureError e name path)) []
  | .ok d =>
    match validatorValidate d.Definition with
    | some e => .ret (some (readValueError e name path)) []
    | none =>
      match addErr with
      | some e => .ret (some e) []
      | none => .ret none [.substitution name d]

/-- `checkBuilders["occurrence"]`: a decode error is silently discarded and
the builder returns nil either way. -/
def occurrenceBuilder (name path : String) (g : Generic) : BuildResult :=
  match decodeOccurrence g occurrenceZero with
  | .ok d => .ret none [.occurrence name d]
  | .error _ => .ret none []

/-- `checkBuilders["repetition"]`. -/
def repetitionBuilder (name path : String) (g : Generic) : BuildResult :=
  match decodeRepetition g repetitionZero with
  | .ok d => .ret none [.repetition name d]
  | .error _ => .ret none []

/-- `checkBuilders["consistency"]`. -/
def consistencyBuilder (name path : String) (g : Generic) : BuildResult :=
  match decodeConsistency g consistencyZero with
  | .ok d => .ret none [.consistency name d]
  | .error _ => .ret none []

/-- `checkBuilders["readability"]`. -/
def readabilityBuilder (name path : String) (g : Generic) : BuildResult :=
  match decodeReadability g readabilityZero with
  | .ok d => .ret none [.readability name d]
  | .error _ => .ret none []

/-- `checkBuilders["conditional"]`: on a successful decode every term of
`mgr.Config.AcceptedTokens` (the set is modelled as a list in one iteration
order) is appended to `Exceptions`, and `exceptRe` is compiled from the
joined result. -/
def conditionalBuilder (name path : String) (accepted : List String)
    (g : Generic) : BuildResult :=
  match decodeConditional g conditionalZero with
  | .ok d =>
    let ex := d.Exceptions ++ accepted
    .ret none [.conditional name
      { d with Exceptions := ex, exceptRe := some (String.intercalate "|" ex) }]
  | .error _ => .ret none []

/-- `checkBuilders["capitalization"]`: same AcceptedTokens handling as the
conditional builder. -/
def capitalizationBuilder (name path : String) (accepted : List String)
    (g : Generic) : BuildResult :=
  match decodeCapitalization g capitalizationZero with
  | .ok d =>
    let ex := d.Exceptions ++ accepted
    .ret none [.capitalization name
      { d with Exceptions := ex, exceptRe := some (String.intercalate "|" ex) }]
  | .error _ => .ret none []

/-- Modelled from the spec: the package-level `ignoreCase` pattern prefix
(defined in manager code outside the shown sources; per the spec,
"`ignorecase: true` prepends the case-insensitive flag"). -/
def ignoreCase : String := "(?i)"

/-- The filter pre-compilation loop of `checkBuilders["spelling"]`: each
entry must be a string (the `filter.(string)` assertion panics otherwise,
modelled as `none`); entries that fail `regexp.Compile` (per the `compileOk`
oracle) are silently skipped. -/
def compileSpellingFilters (compileOk : String → Bool) : List Val → Option (List String)
  | [] => some []
  | .str s :: rest =>
    (compileSpellingFilters compileOk rest).map
      (fun tl => if compileOk s then s :: tl else tl)
  | _ :: _ => none

/-- The `ignore` backwards-compatibility step of `checkBuilders["spelling"]`:
a single string is accepted directly; otherwise the value is asserted to be a
list (`panics` = `none`) whose elements are asserted to be strings. -/
def spellingIgnoreElems : List Val → Option (List String)
  | [] => some []
  | .str s :: rest => (spellingIgnoreElems rest).map (fun tl => s :: tl)
  | _ :: _ => none

/-- The AcceptedTokens loop of `checkBuilders["spelling"]`: each term is
appended to the exceptions and `exceptRe` is recompiled inside the loop, so
it is only set when the set is non-empty. -/
def spellingAcceptedLoop : List String → List String → Option String →
    List String × Option String
  | [], ex, re => (ex, re)
  | t :: ts, ex, re =>
    spellingAcceptedLoop ts (ex ++ [t])
      (some (ignoreCase ++ String.intercalate "|" (ex ++ [t])))

/-- The `filters` step of the spelling builder: returns the compiled filter
patterns and the mapping with `filters` deleted (`none` = panic). -/
def spellingFiltersStep (compileOk : String → Bool) (g : Generic) :
    Option (List String × Generic) :=
  match lookupKey g "filters" with
  | none => some ([], g)
  | some .null => some ([], g)
  | some (.list xs) =>
    match compileSpellingFilters compileOk xs with
    | some pats => some (pats, eraseKey g "filters")
    | none => none
  | some _ => none

/-- The `ignore` step of the spelling builder (`none` = panic). -/
def spellingIgnoreStep (g : Generic) : Option (List String × Generic) :=
  match lookupKey g "ignore" with
  | none => some ([], g)
  | some .null => some ([], g)
  | some (.str s) => some ([s], eraseKey g "ignore")
  | some (.list xs) =>
    match spellingIgnoreElems xs with
    | some igs => some (igs, eraseKey g "ignore")
    | none => none
  | some _ => none

/-- Everything `checkBuilders["spelling"]` does before the final
`mapstructure.Decode`: process `filters` and `ignore`, then run the
AcceptedTokens loop on the zero-valued definition.  Returns the partially
populated definition and the remaining mapping (`none` = panic). -/
def spellingPreDecode (accepted : List String) (compileOk : String → Bool)
    (g : Generic) : Option (Spelling × Generic) :=
  match spellingFiltersStep compileOk g with
  | none => none
  | some (pats, g1) =>
    match spellingIgnoreStep g1 with
    | none => none
    | some (igs, g2) =>
      let exRe := spellingAcceptedLoop accepted [] none
      some ({ spellingZero with
                Filters := pats
                Ignore := igs
                Exceptions := exRe.1
                exceptRe := exRe.2 }, g2)

/-- `checkBuilders["spelling"]`: pre-processing, then the final decode whose
error is silently discarded. -/
def spellingBuilder (name path : String) (accepted : List String)
    (compileOk : String → Bool) (g : Generic) : BuildResult :=
  match spellingPreDecode accepted compileOk g with
  | none => .panicked
  | some (d, g2) =>
    match decodeSpelling g2 d with
    | .ok d2 => .ret none [.spelling name d2]
    | .error _ => .ret none []

/-- The inner `for i := tok.Skip; i > 0; i--` loop of the sequence builder:
append `n` copies of the (optional-marked) token. -/
def skipCopies (t : NLPToken) : Nat → List NLPToken
  | 0 => []
  | n + 1 => t :: skipCopies t n

/-- The token expansion loop of `checkBuilders["sequence"]`, with the
accumulated `def.Tokens` list threaded through as in the source. -/
def sequenceLoop : List Val → List NLPToken → List NLPToken
  | [], acc => acc
  | v :: rest, acc =>
    let tok := decodeNLPToken v
    sequenceLoop rest
      ((acc ++ [tok]) ++ skipCopies { tok with optional := true } (Int.toNat tok.Skip))

/-- The expansion of a single decoded token entry: the entry itself followed
by `Skip` optional copies. -/
def expandEntry (tok : NLPToken) : List NLPToken :=
  tok :: skipCopies { tok with optional := true } (Int.toNat tok.Skip)

/-- `checkBuilders["sequence"]`: the unchecked `generic["tokens"].([]interface{})`
assertion panics unless the key holds a list; otherwise the tokens are
expanded, the key deleted, and the remaining mapping decoded (errors silently
discarded). -/
def sequenceBuilder (name path : String) (g : Generic) : BuildResult :=
  match lookupKey g "tokens" with
  | some (.list vals) =>
    match decodeSequence (eraseKey g "tokens")
        { sequenceZero with Tokens := sequenceLoop vals [] } with
    | .ok d => .ret none [.sequence name d]
    | .error _ => .ret none []
  | _ => .panicked

@[simp] theorem decodeM_bind_ok {α β : Type} (a : α) (f : α → DecodeM β) :
    (Except.ok a >>= f) = f a := rfl

@[simp] theorem decodeM_bind_error {α β : Type} (e : DecodeErr) (f : α → DecodeM β) :
    ((Except.error e : DecodeM α) >>= f) = .error e := rfl

/-- Claim C1 (counterexample): an occurrence rule whose `max` value is a
string fails to decode, yet `checkBuilders["occurrence"]` returns nil and
reports nothing — unlike the existence builder, which would surface the same
failure as a configuration error.  This refutes the claim that every builder
surfaces decode errors the way existence and substitution do. -/
theorem occurrenceBuilder_drops_decode_error :
    decodeOccurrence
        [("extends", Val.str "occurrence"), ("message", Val.str "m"),
         ("max", Val.str "notanint")] occurrenceZero
      = .error ⟨"Max", "expected type 'int'"⟩ ∧
    occurrenceBuilder "BadRule" "Styles/demo.yml"
        [("extends", Val.str "occurrence"), ("message", Val.str "m"),
         ("max", Val.str "notanint")]
      = .ret none [] := ⟨rfl, rfl⟩

/-- Claim C1 (amended): only the existence and substitution builders surface
decode errors as configuration errors (via `readStructureError`); the
occurrence, repetition, consistency, readability, conditional,
capitalization, spelling, and sequence builders silently discard a decode
error and return nil.  In every case the failed rule is not added to the
manager, so compilation of the remaining rules continues. -/
theorem builders_decode_error_surfacing :
    (∀ n p a g e, decodeExistence g existenceZero = .error e →
      existenceBuilder n p a g = .ret (some (readStructureError e n p)) []) ∧
    (∀ n p a g e, decodeSubstitution g substitutionZero = .error e →
      substitutionBuilder n p a g = .ret (some (readStructureError e n p)) []) ∧
    (∀ n p g e, decodeOccurrence g occurrenceZero = .error e →
      occurrenceBuilder n p g = .ret none []) ∧
    (∀ n p g e, decodeRepetition g repetitionZero = .error e →
      repetitionBuilder n p g = .ret none []) ∧
    (∀ n p g e, decodeConsistency g consistencyZero = .error e →
      consistencyBuilder n p g = .ret none []) ∧
    (∀ n p g e, decodeReadability g readabilityZero = .error e →
      readabilityBuilder n p g = .ret none []) ∧
    (∀ n p acc g e, decodeConditional g conditionalZero = .error e →
      conditionalBuilder n p acc g = .ret none []) ∧
    (∀ n p acc g e, decodeCapitalization g capitalizationZero = .error e →
      capitalizationBuilder n p acc g = .ret none []) ∧
    (∀ n p acc ok g d g2 e, spellingPreDecode acc ok g = some (d, g2) →
      decodeSpelling g2 d = .error e →
      spellingBuilder n p acc ok g = .ret none []) ∧
    (∀ n p g vals e, lookupKey g "tokens" = some (.list vals) →
      decodeSequence (eraseKey g "tokens")
          { sequenceZero with Tokens := sequenceLoop vals [] } = .error e →
      sequenceBuilder n p g = .ret none []) := by
  refine ⟨?_, ?_, ?_, ?_, ?_, ?_, ?_, ?_, ?_, ?_⟩
  · intro n p a g e h
    simp [existenceBuilder, h]
  · intro n p a g e h
    simp [substitutionBuilder, h]
  · intro n p g e h
    simp [occurrenceBuilder, h]
  · intro n p g e h
    simp [repetitionBuilder, h]
  · intro n p g e h
    simp [consistencyBuilder, h]
  · intro n p g e h
    simp [readabilityBuilder, h]
  · intro n p acc g e h
    simp [conditionalBuilder, h]
  · intro n p acc g e h
    simp [capitalizationBuilder, h]
  · intro n p acc ok g d g2 e hp h
    simp [spellingBuilder, hp, h]
  · intro n p g vals e hl h
    simp [sequenceBuilder, hl, h]

/-- Claim C1 witness: the amended behavior at a concrete mapping whose
`message` value is an integer, for each of the ten builders (for sequence,
with a well-formed empty token list so the decode step is reached). -/
theorem builders_decode_error_surfacing_witness :
    existenceBuilder "r" "p" none [("message", Val.int 0)]
      = .ret (some (readStructureError ⟨"Message", "expected type 'string'"⟩ "r" "p")) [] ∧
    substitutionBuilder "r" "p" none [("message", Val.int 0)]
      = .ret (some (readStructureError ⟨"Message", "expected type 'string'"⟩ "r" "p")) [] ∧
    occurrenceBuilder "r" "p" [("message", Val.int 0)] = .ret none [] ∧
    repetitionBuilder "r" "p" [("message", Val.int 0)] = .ret none [] ∧
    consistencyBuilder "r" "p" [("message", Val.int 0)] = .ret none [] ∧
    readabilityBuilder "r" "p" [("message", Val.int 0)] = .ret none [] ∧
    conditionalBuilder "r" "p" ["tok"] [("message", Val.int 0)] = .ret none [] ∧
    capitalizationBuilder "r" "p" ["tok"] [("message", Val.int 0)] = .ret none [] ∧
    spellingBuilder "r" "p" ["tok"] (fun _ => true) [("message", Val.int 0)] = .ret none [] ∧
    sequenceBuilder "r" "p" [("tokens", Val.list []), ("message", Val.int 0)]
      = .ret none [] := by
  obtain ⟨h1, h2, h3, h4, h5, h6, h7, h8, h9, h10⟩ := builders_decode_error_surfacing
  refine ⟨h1 "r" "p" none _ _ rfl, h2 "r" "p" none _ _ rfl, h3 "r" "p" _ _ rfl,
    h4 "r" "p" _ _ rfl, h5 "r" "p" _ _ rfl, h6 "r" "p" _ _ rfl,
    h7 "r" "p" ["tok"] _ _ rfl, h8 "r" "p" ["tok"] _ _ rfl,
    h9 "r" "p" ["tok"] (fun _ => true) _ _ _ _ rfl rfl,
    h10 "r" "p" _ [] _ rfl rfl⟩

/-- Closed form of the AcceptedTokens loop of the spelling builder. -/
theorem spellingAcceptedLoop_spec (ts : List String) (ex : List String) (re : Option String) :
    spellingAcceptedLoop ts ex re =
      (ex ++ ts,
       if ts = [] then re
       else some (ignoreCase ++ String.intercalate "|" (ex ++ ts))) := by
  induction ts generalizing ex re with
  | nil => simp [spellingAcceptedLoop]
  | cons t ts ih =>
    rw [spellingAcceptedLoop, ih]
    by_cases hts : ts = []
    · subst hts
      simp
    · simp [hts, List.append_assoc]

/-- The fields the spelling builder populates before its final decode. -/
theorem spellingPreDecode_fields (acc : List String) (ok : String → Bool)
    (g : Generic) (d : Spelling) (g2 : Generic)
    (h : spellingPreDecode acc ok g = some (d, g2)) :
    d.Exceptions = acc ∧
    d.exceptRe = (if acc = [] then none
      else some (ignoreCase ++ String.intercalate "|" acc)) := by
  rcases hf : spellingFiltersStep ok g with _ | ⟨pats, g1⟩
  · simp [spellingPreDecode, hf] at h
  · rcases hi : spellingIgnoreStep g1 with _ | ⟨igs, g2'⟩
    · simp [spellingPreDecode, hf, hi] at h
    · simp [spellingPreDecode, hf, hi] at h
      obtain ⟨hd, _⟩ := h
      subst hd
      simp [spellingAcceptedLoop_spec]

/-- A successful final decode of a spelling rule keeps the unexported
`exceptRe` field and the pre-compiled `Filters`, and keeps `Exceptions`
exactly when the mapping defines no `exceptions` key. -/
theorem decodeSpelling_ok_fields (g : Generic) (d d2 : Spelling)
    (h : decodeSpelling g d = .ok d2) :
    d2.exceptRe = d.exceptRe ∧ d2.Filters = d.Filters ∧
    (lookupField g "exceptions" = none → d2.Exceptions = d.Exceptions) := by
  unfold decodeSpelling at h
  rcases h1 : decodeDefinition g d.Definition with e | base <;> rw [h1] at h
  · exact Except.noConfusion h
  rcases h2 : decodeStrField g "aff" "Aff" d.Aff with e | aff <;> rw [h2] at h
  · exact Except.noConfusion h
  rcases h3 : decodeBoolField g "custom" "Custom" d.Custom with e | cust <;> rw [h3] at h
  · exact Except.noConfusion h
  rcases h4 : decodeStrField g "dic" "Dic" d.Dic with e | dic <;> rw [h4] at h
  · exact Except.noConfusion h
  simp only [decodeM_bind_ok] at h
  rcases h5 : lookupField g "filters" with _ | v
  all_goals rw [h5] at h
  case some =>
    cases v
    case null =>
      rcases h6 : decodeStrListField g "ignore" "Ignore" d.Ignore with e | ign <;> rw [h6] at h
      · exact Except.noConfusion h
      rcases h7 : decodeStrListField g "exceptions" "Exceptions" d.Exceptions
        with e | ex <;> rw [h7] at h
      · exact Except.noConfusion h
      rcases h8 : decodeIntField g "threshold" "Threshold" d.Threshold with e | th <;> rw [h8] at h
      · exact Except.noConfusion h
      simp only [decodeM_bind_ok] at h
      injection h with h
      subst h
      refine ⟨rfl, rfl, ?_⟩
      intro hnone
      simp [decodeStrListField, hnone] at h7
      exact h7.symm
    all_goals exact Except.noConfusion h
  case none =>
    rcases h6 : decodeStrListField g "ignore" "Ignore" d.Ignore with e | ign <;> rw [h6] at h
    · exact Except.noConfusion h
    rcases h7 : decodeStrListField g "exceptions" "Exceptions" d.Exceptions
      with e | ex <;> rw [h7] at h
    · exact Except.noConfusion h
    rcases h8 : decodeIntField g "threshold" "Threshold" d.Threshold with e | th <;> rw [h8] at h
    · exact Except.noConfusion h
    simp only [decodeM_bind_ok] at h
    injection h with h
    subst h
    refine ⟨rfl, rfl, ?_⟩
    intro hnone
    simp [decodeStrListField, hnone] at h7
    exact h7.symm

/-- The concrete spelling rule of the C4 counterexample: its mapping defines
an `exceptions` entry of its own. -/
def c4Generic : Generic :=
  [("extends", Val.str "spelling"), ("message", Val.str "m"),
   ("exceptions", Val.list [Val.str "e"])]

/-- The compiled rule the C4 counterexample produces. -/
def c4Expected : Spelling :=
  { Definition := { definitionZero with Extends := "spelling", Message := "m" }
    Aff := ""
    Custom := false
    Dic := ""
    Filters := []
    Ignore := []
    Exceptions := ["e"]
    Threshold := 0
    exceptRe := some "(?i)t" }

/-- Claim C4 (counterexample): compiling a spelling rule whose mapping has an
`exceptions` entry `["e"]` with AcceptedTokens `{"t"}`: the accepted token
`"t"` ends up in the compiled exception pattern `(?i)t` (built before the
final decode) but not in the rule's `Exceptions` list, which the final
`mapstructure.Decode` overwrites with `["e"]`.  This refutes the claim that
for spelling rules every accepted token is appended to the `Exceptions`
list. -/
theorem spellingBuilder_decode_clobbers_accepted :
    spellingBuilder "r" "p" ["t"] (fun _ => true) c4Generic
      = .ret none [.spelling "r" c4Expected] ∧
    "t" ∉ c4Expected.Exceptions ∧
    c4Expected.exceptRe = some ("(?i)" ++ "t") := by
  refine ⟨rfl, ?_, rfl⟩
  decide

/-- Claim C4 (amended): every term of AcceptedTokens is included in the
alternation of the compiled exception pattern for all three kinds.  For
conditional and capitalization rules each term is also appended to the
compiled rule's `Exceptions` list; for spelling rules the terms are appended
to `Exceptions` before the final decode (so the compiled pattern is
`(?i)` followed by the joined accepted terms), but they survive in the final
`Exceptions` list only when the rule's mapping defines no `exceptions` key,
because the final decode overwrites that field. -/
theorem acceptedTokens_appended_to_exceptions :
    (∀ n p acc g d, decodeConditional g conditionalZero = .ok d →
      conditionalBuilder n p acc g = .ret none [.conditional n
        { d with Exceptions := d.Exceptions ++ acc,
                 exceptRe := some (String.intercalate "|" (d.Exceptions ++ acc)) }]) ∧
    (∀ n p acc g d, decodeCapitalization g capitalizationZero = .ok d →
      capitalizationBuilder n p acc g = .ret none [.capitalization n
        { d with Exceptions := d.Exceptions ++ acc,
                 exceptRe := some (String.intercalate "|" (d.Exceptions ++ acc)) }]) ∧
    (∀ acc ok g d g2, spellingPreDecode acc ok g = some (d, g2) →
      d.Exceptions = acc ∧
      (acc ≠ [] → d.exceptRe = some (ignoreCase ++ String.intercalate "|" acc)) ∧
      (lookupField g2 "exceptions" = none →
        ∀ d2, decodeSpelling g2 d = .ok d2 →
          d2.Exceptions = acc ∧ d2.exceptRe = d.exceptRe)) := by
  refine ⟨?_, ?_, ?_⟩
  · intro n p acc g d h
    simp [conditionalBuilder, h]
  · intro n p acc g d h
    simp [capitalizationBuilder, h]
  · intro acc ok g d g2 hpre
    obtain ⟨hex, hre⟩ := spellingPreDecode_fields acc ok g d g2 hpre
    refine ⟨hex, ?_, ?_⟩
    · intro hne
      rw [hre, if_neg hne]
    · intro hnone d2 hok
      obtain ⟨hre2, _, hex2⟩ := decodeSpelling_ok_fields g2 d d2 hok
      exact ⟨(hex2 hnone).trans hex, hre2⟩

/-- Claim C4 witness: the amended statement at a concrete conditional rule
with AcceptedTokens `{"t1", "t2"}` and its own exception `"ex"`. -/
theorem acceptedTokens_appended_to_exceptions_witness :
    conditionalBuilder "r" "p" ["t1", "t2"]
        [("extends", Val.str "conditional"), ("message", Val.str "m"),
         ("exceptions", Val.list [Val.str "ex"])]
      = .ret none [.conditional "r"
          { Definition := { definitionZero with Extends := "conditional", Message := "m" }
            Ignorecase := false
            First := ""
            Second := ""
            Exceptions := ["ex", "t1", "t2"]
            exceptRe := some "ex|t1|t2" }] := by
  have h := (acceptedTokens_appended_to_exceptions).1 "r" "p" ["t1", "t2"]
    [("extends", Val.str "conditional"), ("message", Val.str "m"),
     ("exceptions", Val.list [Val.str "ex"])]
    { Definition := { definitionZero with Extends := "conditional", Message := "m" }
      Ignorecase := false
      First := ""
      Second := ""
      Exceptions := ["ex"]
      exceptRe := none } rfl
  exact h.trans (by rfl)

/-- The inner countdown loop appends exactly `n` copies. -/
theorem skipCopies_eq_replicate (t : NLPToken) (n : Nat) :
    skipCopies t n = List.replicate n t := by
  induction n with
  | zero => rfl
  | succ n ih => simp [skipCopies, ih, List.replicate_succ]

/-- The per-entry expansion of the sequence token list, following the spec's
description: each entry, then its optional skip copies, in order. -/
def expandAll : List Val → List NLPToken
  | [] => []
  | v :: rest => expandEntry (decodeNLPToken v) ++ expandAll rest

/-- The source's accumulator loop equals the per-entry expansion. -/
theorem sequenceLoop_eq (vals : List Val) (acc : List NLPToken) :
    sequenceLoop vals acc = acc ++ expandAll vals := by
  induction vals generalizing acc with
  | nil => simp [sequenceLoop, expandAll]
  | cons v rest ih => simp [sequenceLoop, expandAll, ih, expandEntry]

/-- A successful sequence decode keeps the expanded token list. -/
theorem decodeSequence_ok_tokens (g : Generic) (d d2 : Sequence)
    (h : decodeSequence g d = .ok d2) : d2.Tokens = d.Tokens := by
  unfold decodeSequence at h
  rcases h1 : decodeDefinition g d.Definition with e | base <;> rw [h1] at h
  · exact Except.noConfusion h
  rcases h2 : decodeBoolField g "ignorecase" "Ignorecase" d.Ignorecase
    with e | ign <;> rw [h2] at h
  · exact Except.noConfusion h
  injection h with h
  subst h
  rfl

/-- Claim C7: compiling a sequence rule expands each token entry with
`skip: k` into `1 + k` consecutive entries — the entry itself (with
`optional` false, as decoded) followed by `k` copies marked optional — and
an entry with skip 0 stays a single non-optional entry. -/
theorem sequenceBuilder_skip_expansion (n p : String) (g : Generic)
    (vals : List Val) (d : Sequence)
    (h : lookupKey g "tokens" = some (.list vals))
    (hd : decodeSequence (eraseKey g "tokens")
        { sequenceZero with Tokens := sequenceLoop vals [] } = .ok d) :
    sequenceBuilder n p g = .ret none [.sequence n d] ∧
    d.Tokens = expandAll vals ∧
    (∀ tok : NLPToken, expandEntry tok =
      tok :: List.replicate (Int.toNat tok.Skip) { tok with optional := true }) ∧
    (∀ tok : NLPToken, tok.Skip = 0 → expandEntry tok = [tok]) ∧
    (∀ v, (decodeNLPToken v).optional = false) := by
  refine ⟨?_, ?_, ?_, ?_, ?_⟩
  · simp [sequenceBuilder, h, hd]
  · rw [decodeSequence_ok_tokens _ _ _ hd]
    simp [sequenceLoop_eq]
  · intro tok
    simp [expandEntry, skipCopies_eq_replicate]
  · intro tok h0
    simp [expandEntry, h0, skipCopies]
  · intro v
    cases v <;> rfl

/-- The concrete sequence rule of the C7 witness: one token with `skip: 2`. -/
def c7Generic : Generic :=
  [("extends", Val.str "sequence"), ("message", Val.str "m"),
   ("tokens", Val.list [Val.map [("pattern", Val.str "NN"), ("skip", Val.int 2)]])]

/-- The decoded token of the C7 witness. -/
def c7Token : NLPToken := ⟨"NN", false, "", 2, none, false⟩

/-- The compiled rule of the C7 witness. -/
def c7Sequence : Sequence :=
  { Definition := { definitionZero with Extends := "sequence", Message := "m" }
    Ignorecase := false
    Tokens := [c7Token, { c7Token with optional := true },
               { c7Token with optional := true }] }

/-- Claim C7 witness: the expansion applied to the concrete rule: the
`skip: 2` entry becomes three consecutive entries, the last two optional. -/
theorem sequenceBuilder_skip_expansion_witness :
    sequenceBuilder "r" "p" c7Generic = .ret none [.sequence "r" c7Sequence] ∧
    c7Sequence.Tokens
      = expandAll [Val.map [("pattern", Val.str "NN"), ("skip", Val.int 2)]] := by
  have h := sequenceBuilder_skip_expansion "r" "p" c7Generic
    [Val.map [("pattern", Val.str "NN"), ("skip", Val.int 2)]] c7Sequence rfl (by rfl)
  exact ⟨h.1, h.2.1⟩

/-- Claim C8: when the raw mapping has no `tokens` key or its `tokens` value
is not a list, the sequence builder panics on the unchecked type assertion
`generic["tokens"].([]interface{})` and never reaches a return, so no
configuration error can be reported for this malformed input. -/
theorem sequenceBuilder_malformed_tokens_panics (n p : String) (g : Generic)
    (h : ∀ vals, lookupKey g "tokens" ≠ some (.list vals)) :
    sequenceBuilder n p g = .panicked ∧
    ∀ err added, sequenceBuilder n p g ≠ .ret err added := by
  have hmain : sequenceBuilder n p g = .panicked := by
    unfold sequenceBuilder
    rcases hl : lookupKey g "tokens" with _ | v
    · rfl
    · cases v with
      | list vals => exact absurd hl (h vals)
      | null => rfl
      | str s => rfl
      | int m => rfl
      | bool b => rfl
      | map m => rfl
  refine ⟨hmain, ?_⟩
  intro err added hne
  rw [hmain] at hne
  exact BuildResult.noConfusion hne

/-- Claim C8 witness: a sequence rule mapping with no `tokens` key panics. -/
theorem sequenceBuilder_malformed_tokens_panics_witness :
    sequenceBuilder "r" "p" [("extends", Val.str "sequence"), ("message", Val.str "m")]
      = .panicked :=
  (sequenceBuilder_malformed_tokens_panics "r" "p"
    [("extends", Val.str "sequence"), ("message", Val.str "m")]
    (by intro vals hv; simp [lookupKey] at hv)).1

/-- Coercing a list of string values succeeds and preserves order. -/
theorem spellingIgnoreElems_map (strs : List String) :
    spellingIgnoreElems (strs.map Val.str) = some strs := by
  induction strs with
  | nil => rfl
  | cons s rest ih => simp [spellingIgnoreElems, ih]

/-- Filter compilation over string entries keeps exactly the compilable
patterns, in order. -/
theorem compileSpellingFilters_map (ok : String → Bool) (pats : List String) :
    compileSpellingFilters ok (pats.map Val.str) = some (pats.filter ok) := by
  induction pats with
  | nil => rfl
  | cons pat rest ih =>
    simp [compileSpellingFilters, ih, List.filter_cons]

/-- The filters step ignores a leading binding with a different key. -/
theorem spellingFiltersStep_cons_other (ok : String → Bool) (k : String) (v : Val)
    (rest : Generic) (hk : k ≠ "filters") :
    spellingFiltersStep ok ((k, v) :: rest) =
      (spellingFiltersStep ok rest).map (fun pr => (pr.1, (k, v) :: pr.2)) := by
  have h1 : lookupKey ((k, v) :: rest) "filters" = lookupKey rest "filters" := by
    simp [lookupKey, hk]
  rcases hw : lookupKey rest "filters" with _ | w
  · simp [spellingFiltersStep, h1, hw]
  · cases w with
    | list xs =>
      rcases hc : compileSpellingFilters ok xs with _ | pats <;>
        simp [spellingFiltersStep, h1, hw, hc, eraseKey, hk]
    | null => simp [spellingFiltersStep, h1, hw]
    | str s => simp [spellingFiltersStep, h1, hw]
    | int m => simp [spellingFiltersStep, h1, hw]
    | bool b => simp [spellingFiltersStep, h1, hw]
    | map m => simp [spellingFiltersStep, h1, hw]

/-- The ignore step on a single-string `ignore` value. -/
theorem spellingIgnoreStep_str (s : String) (g1 : Generic) :
    spellingIgnoreStep (("ignore", Val.str s) :: g1)
      = some ([s], eraseKey g1 "ignore") := by
  simp [spellingIgnoreStep, lookupKey, eraseKey]

/-- The ignore step on a list-of-strings `ignore` value. -/
theorem spellingIgnoreStep_strList (strs : List String) (g1 : Generic) :
    spellingIgnoreStep (("ignore", Val.list (strs.map Val.str)) :: g1)
      = some (strs, eraseKey g1 "ignore") := by
  simp [spellingIgnoreStep, lookupKey, eraseKey, spellingIgnoreElems_map]

/-- The ignore step on a one-element list. -/
theorem spellingIgnoreStep_singleton (s : String) (g1 : Generic) :
    spellingIgnoreStep (("ignore", Val.list [Val.str s]) :: g1)
      = some ([s], eraseKey g1 "ignore") := by
  simpa using spellingIgnoreStep_strList [s] g1

/-- Unfolding of the spelling pre-decode on a mapping led by an `ignore`
binding: the filters step commutes past it. -/
theorem spellingPreDecode_ignore_head (acc : List String) (ok : String → Bool)
    (v : Val) (rest : Generic) :
    spellingPreDecode acc ok (("ignore", v) :: rest) =
      match spellingFiltersStep ok rest with
      | none => none
      | some (pats, g1) =>
        match spellingIgnoreStep (("ignore", v) :: g1) with
        | none => none
        | some (igs, g2) =>
          let exRe := spellingAcceptedLoop acc [] none
          some ({ spellingZero with
                    Filters := pats
                    Ignore := igs
                    Exceptions := exRe.1
                    exceptRe := exRe.2 }, g2) := by
  rcases hf : spellingFiltersStep ok rest with _ | ⟨pats, g1⟩ <;>
    simp [spellingPreDecode, spellingFiltersStep_cons_other ok "ignore" v rest (by decide), hf]

/-- Claim C9: the spelling `ignore` field accepts a single string or a list
of strings: a single string `s` compiles identically to the one-element list
`[s]`, and a list contributes its elements to `Ignore` in order. -/
theorem spelling_ignore_string_or_list :
    (∀ n p acc ok s rest,
      spellingBuilder n p acc ok (("ignore", Val.str s) :: rest) =
        spellingBuilder n p acc ok (("ignore", Val.list [Val.str s]) :: rest)) ∧
    (∀ acc ok strs rest d g2,
      spellingPreDecode acc ok (("ignore", Val.list (strs.map Val.str)) :: rest)
        = some (d, g2) → d.Ignore = strs) := by
  constructor
  · intro n p acc ok s rest
    rcases hf : spellingFiltersStep ok rest with _ | ⟨pats, g1⟩
    · simp [spellingBuilder, spellingPreDecode_ignore_head, hf]
    · simp [spellingBuilder, spellingPreDecode_ignore_head, hf,
        spellingIgnoreStep_str, spellingIgnoreStep_singleton]
  · intro acc ok strs rest d g2 h
    rw [spellingPreDecode_ignore_head] at h
    rcases hf : spellingFiltersStep ok rest with _ | ⟨pats, g1⟩
    · simp [hf] at h
    · simp [hf, spellingIgnoreStep_strList] at h
      obtain ⟨hd, _⟩ := h
      subst hd
      rfl

/-- Claim C9 witness: a single-string `ignore` compiles like its one-element
list, and a two-element list lands in `Ignore` in order. -/
theorem spelling_ignore_string_or_list_witness :
    (spellingBuilder "r" "p" [] (fun _ => true)
        [("ignore", Val.str "w.txt"), ("extends", Val.str "spelling"),
         ("message", Val.str "m")]
      = spellingBuilder "r" "p" [] (fun _ => true)
        [("ignore", Val.list [Val.str "w.txt"]), ("extends", Val.str "spelling"),
         ("message", Val.str "m")]) ∧
    ({ spellingZero with Ignore := ["a.txt", "b.txt"] } : Spelling).Ignore
      = ["a.txt", "b.txt"] := by
  constructor
  · exact spelling_ignore_string_or_list.1 "r" "p" [] (fun _ => true) "w.txt"
      [("extends", Val.str "spelling"), ("message", Val.str "m")]
  · exact spelling_ignore_string_or_list.2 [] (fun _ => true) ["a.txt", "b.txt"]
      [("extends", Val.str "spelling")]
      { spellingZero with Ignore := ["a.txt", "b.txt"] }
      [("extends", Val.str "spelling")] (by rfl)

/-- The filters step on a mapping led by a `filters` list. -/
theorem spellingFiltersStep_head (ok : String → Bool) (xs : List Val) (rest : Generic) :
    spellingFiltersStep ok (("filters", Val.list xs) :: rest) =
      match compileSpellingFilters ok xs with
      | some pats => some (pats, eraseKey rest "filters")
      | none => none := by
  rcases hc : compileSpellingFilters ok xs with _ | pats <;>
    simp [spellingFiltersStep, lookupKey, eraseKey, hc]

/-- Claim C10: every `filters` entry that fails to compile is silently
skipped: the builder reports no error, the compilable filters are kept in
order in `Filters`, and the rule is still added when the final decode
succeeds. -/
theorem spelling_filters_silently_skipped (n p : String) (acc : List String)
    (ok : String → Bool) (pats : List String) (rest : Generic) (d : Spelling)
    (g2 : Generic)
    (hpre : spellingPreDecode acc ok
        (("filters", Val.list (pats.map Val.str)) :: rest) = some (d, g2)) :
    d.Filters = pats.filter ok ∧
    (∃ l, spellingBuilder n p acc ok
      (("filters", Val.list (pats.map Val.str)) :: rest) = .ret none l) ∧
    (∀ d2, decodeSpelling g2 d = .ok d2 →
      spellingBuilder n p acc ok (("filters", Val.list (pats.map Val.str)) :: rest)
        = .ret none [.spelling n d2] ∧ d2.Filters = pats.filter ok) := by
  have hstep : spellingFiltersStep ok (("filters", Val.list (pats.map Val.str)) :: rest)
      = some (pats.filter ok, eraseKey rest "filters") := by
    rw [spellingFiltersStep_head, compileSpellingFilters_map]
  rcases hi : spellingIgnoreStep (eraseKey rest "filters") with _ | ⟨igs, g2'⟩
  · exfalso
    simp [spellingPreDecode, hstep, hi] at hpre
  · have hpre' := hpre
    simp [spellingPreDecode, hstep, hi] at hpre'
    obtain ⟨hd, _⟩ := hpre'
    have hfil : d.Filters = pats.filter ok := by
      rw [← hd]
    refine ⟨hfil, ?_, ?_⟩
    · rcases hdec : decodeSpelling g2 d with e | d2
      · exact ⟨[], by simp [spellingBuilder, hpre, hdec]⟩
      · exact ⟨[.spelling n d2], by simp [spellingBuilder, hpre, hdec]⟩
    · intro d2 hdec
      constructor
      · simp [spellingBuilder, hpre, hdec]
      · obtain ⟨_, hfil2, _⟩ := decodeSpelling_ok_fields g2 d d2 hdec
        rw [hfil2, hfil]

/-- The concrete spelling rule of the C10 witness: one valid and one invalid
filter pattern. -/
def c10Generic : Generic :=
  [("filters", Val.list [Val.str "[A-Z]+", Val.str "("]),
   ("extends", Val.str "spelling"), ("message", Val.str "m")]

/-- The compile oracle of the C10 witness: `(` does not compile. -/
def c10Ok : String → Bool := fun s => !(s == "(")

/-- The pre-decode result of the C10 witness: only the valid filter kept. -/
def c10Pre : Spelling := { spellingZero with Filters := ["[A-Z]+"] }

/-- Claim C10 witness: the invalid filter `(` is dropped, the valid one kept,
and the builder returns nil. -/
theorem spelling_filters_silently_skipped_witness :
    c10Pre.Filters = ["[A-Z]+", "("].filter c10Ok ∧
    (∃ l, spellingBuilder "r" "p" [] c10Ok c10Generic = .ret none l) := by
  have h := spelling_filters_silently_skipped "r" "p" [] c10Ok ["[A-Z]+", "("]
    [("extends", Val.str "spelling"), ("message", Val.str "m")] c10Pre
    [("extends", Val.str "spelling"), ("message", Val.str "m")] (by rfl)
  exact ⟨h.1, h.2.1⟩

/-
CLI driver model (`main.go`).  Filesystem tests, the linter, configuration
loading, built-in commands, stdin contents, and alert printing are external
collaborators; they are modelled as oracle functions bundled in an
environment.  `os.Exit` outcomes and the errors passed to `ShowError` (the
stderr reports) are made explicit in `MainOutcome`.
-/

/-- A linted file (`*core.File`); its contents are irrelevant to the claims. -/
structure CoreFile where
  name : String
deriving DecidableEq

/-- Runtime errors (`core.NewE100(scope, err)`). -/
inductive RuntimeErr where
  | e100 (scope msg : String)
deriving DecidableEq

/-- Oracles for `core.FileExists` and `core.IsDir`. -/
structure FS where
  fileExists : String → Bool
  isDir : String → Bool

/-- `looksLikeStdin` from `main.go`. -/
def looksLikeStdin (fs : FS) (s : String) : Bool :=
  !(fs.fileExists s || fs.isDir s) && !(s == "")

/-- A call `doLint` makes into the linter. -/
inductive LintCall where
  | lintString (s : String)
  | lintFiles (input : List String) (glob : String)
deriving DecidableEq

/-- What `doLint` returns, together with the linter calls it made. -/
structure DoLintResult where
  linted : List CoreFile
  err : Option RuntimeErr
  calls : List LintCall
deriving DecidableEq

/-- Oracles for the linter and standard input. -/
structure LintEnv where
  fs : FS
  lintString : String → List CoreFile × Option RuntimeErr
  lintFiles : List String → String → List CoreFile × Option RuntimeErr
  stdinData : Except String String

/-- The argument loop of `doLint` (case 2): the first argument that neither
exists nor is a directory (and is non-empty) aborts with an E100 before any
linting; otherwise all arguments are passed to `Linter.Lint`. -/
def lintArgsLoop (env : LintEnv) (glob : String) :
    List String → List String → DoLintResult
  | [], input =>
    let r := env.lintFiles input glob
    ⟨r.1, r.2, [.lintFiles input glob]⟩
  | f :: rest, input =>
    if looksLikeStdin env.fs f then
      ⟨[], some (.e100 "doLint" ("argument '" ++ f ++ "' does not exist")), []⟩
    else
      lintArgsLoop env glob rest (input ++ [f])

/-- `doLint` from `main.go`.  In case 3 (no arguments, piped stdin) the
source assigns the `LintString` error to a *shadowing* local `err` declared
by `stdin, err := ioutil.ReadAll(os.Stdin)`, so the outer `err` that is
returned stays nil and the lint error is discarded. -/
def doLint (env : LintEnv) (args : List String) (glob : String) : DoLintResult :=
  match args with
  | [] =>
    match env.stdinData with
    | .error msg => ⟨[], some (.e100 "doLint" msg), []⟩
    | .ok s =>
      let r := env.lintString s
      ⟨r.1, none, [.lintString s]⟩
  | a :: rest =>
    if rest.isEmpty && looksLikeStdin env.fs a then
      let r := env.lintString a
      ⟨r.1, r.2, [.lintString a]⟩
    else
      lintArgsLoop env glob (a :: rest) []

/-- The full environment of `main`. -/
structure MainEnv where
  lintEnv : LintEnv
  args : List String
  statPiped : Bool
  flagsGlob : String
  flagsNoExit : Bool
  flagsPath : String
  commands : List String
  doCommand : String → Option RuntimeErr
  newConfig : Option RuntimeErr
  fromIni : Option RuntimeErr
  newLinter : Option RuntimeErr
  printAlerts : List CoreFile → Except RuntimeErr Bool

/-- `validateFlags` from `main.go`. -/
def validateFlags (env : MainEnv) : Option RuntimeErr :=
  if env.flagsPath ≠ "" ∧ ¬ env.lintEnv.fs.fileExists env.flagsPath then
    some (.e100 "--config" ("path '" ++ env.flagsPath ++ "' does not exist"))
  else none

/-- Where `main` ends up: an `os.Exit` with a code, or the intro screen
(`printIntro` lives outside the shown sources; per the spec it prints and
ends the run without linting, so it is modelled as its own terminal
outcome).  `reported` collects the errors passed to `ShowError` (stderr). -/
inductive MainOutcome where
  | exited (code : Nat) (reported : List RuntimeErr)
  | intro (reported : List RuntimeErr)
deriving DecidableEq

/-- `main` from `main.go`.  Note that a `core.NewConfig` error is shown but
does not exit; `handleError` shows the error and exits 2; a successful
built-in command exits 1 and a failing one exits 2; alerts exit 1 unless
`--no-exit` is set. -/
def mainRun (env : MainEnv) : MainOutcome :=
  let rep0 : List RuntimeErr := match env.newConfig with | some e => [e] | none => []
  if env.args.isEmpty && !env.statPiped then
    .intro rep0
  else if env.args.length == 1 && env.commands.contains (env.args.headD "") then
    match env.doCommand (env.args.headD "") with
    | some _ => .exited 2 rep0
    | none => .exited 1 rep0
  else
    match validateFlags env with
    | some e => .exited 2 (rep0 ++ [e])
    | none =>
      match env.fromIni with
      | some e => .exited 2 (rep0 ++ [e])
      | none =>
        match env.newLinter with
        | some e => .exited 2 (rep0 ++ [e])
        | none =>
          let r := doLint env.lintEnv env.args env.flagsGlob
          match r.err with
          | some e => .exited 2 (rep0 ++ [e])
          | none =>
            match env.printAlerts r.linted with
            | .error e => .exited 2 (rep0 ++ [e])
            | .ok hasErrors =>
              if hasErrors && !env.flagsNoExit then .exited 1 rep0
              else .exited 0 rep0

/-- The concrete C5 environment: no arguments, piped stdin that reads fine,
and a linter whose `LintString` fails. -/
def c5Env : MainEnv :=
  { lintEnv :=
      { fs := ⟨fun _ => false, fun _ => false⟩
        lintString := fun _ => ([], some (.e100 "lint" "lint failed"))
        lintFiles := fun _ _ => ([], none)
        stdinData := .ok "piped text" }
    args := []
    statPiped := true
    flagsGlob := ""
    flagsNoExit := false
    flagsPath := ""
    commands := ["ls-config"]
    doCommand := fun _ => none
    newConfig := none
    fromIni := none
    newLinter := none
    printAlerts := fun _ => .ok false }

/-- Claim C5 (code bug): linting piped stdin whose `LintString` call returns
a runtime error exits 0 with nothing reported, because `doLint` assigns the
error to a shadowing inner `err` and returns the untouched outer nil — the
claim (and the spec's E100 contract) say a runtime error must exit 2.  The
remaining conjuncts confirm the exit paths the claim states correctly: a
clean run exits 0, a successful built-in command exits 1, a failing one
exits 2, alerts exit 1 without `--no-exit` and 0 with it, and a propagated
runtime error exits 2 and is reported. -/
theorem mainRun_swallows_stdin_lint_error :
    mainRun c5Env = .exited 0 [] ∧
    (c5Env.lintEnv.lintString "piped text").2 = some (.e100 "lint" "lint failed") ∧
    doLint c5Env.lintEnv [] "" = ⟨[], none, [.lintString "piped text"]⟩ ∧
    mainRun { c5Env with args := ["ls-config"] } = .exited 1 [] ∧
    mainRun { c5Env with
                args := ["ls-config"]
                doCommand := fun _ => some (.e100 "doCommand" "failed") }
      = .exited 2 [] ∧
    mainRun { c5Env with printAlerts := fun _ => .ok true } = .exited 1 [] ∧
    mainRun { c5Env with
                printAlerts := fun _ => .ok true
                flagsNoExit := true }
      = .exited 0 [] ∧
    mainRun { c5Env with newLinter := some (.e100 "lint" "no linter") }
      = .exited 2 [.e100 "lint" "no linter"] :=
  ⟨rfl, rfl, rfl, rfl, rfl, rfl, rfl, rfl⟩

/-- The first argument of the list that fails the existence test. -/
def firstBadArg (fs : FS) : List String → Option String
  | [] => none
  | f :: rest => if looksLikeStdin fs f then some f else firstBadArg fs rest

/-- The argument loop aborts at the first bad argument with an E100, having
linted nothing. -/
theorem lintArgsLoop_bad (env : LintEnv) (glob : String) (args input : List String)
    (a : String) (h : firstBadArg env.fs args = some a) :
    lintArgsLoop env glob args input =
      ⟨[], some (.e100 "doLint" ("argument '" ++ a ++ "' does not exist")), []⟩ := by
  induction args generalizing input with
  | nil => exact Option.noConfusion h
  | cons f rest ih =>
    unfold firstBadArg at h
    by_cases hf : looksLikeStdin env.fs f = true
    · rw [if_pos hf] at h
      injection h with h
      subst h
      simp [lintArgsLoop, hf]
    · rw [if_neg hf] at h
      simp [lintArgsLoop, hf]
      exact ih (input ++ [f]) h

/-- The first bad argument is one of the arguments and fails the test. -/
theorem firstBadArg_mem (fs : FS) (args : List String) (a : String)
    (h : firstBadArg fs args = some a) :
    a ∈ args ∧ looksLikeStdin fs a = true := by
  induction args with
  | nil => exact Option.noConfusion h
  | cons f rest ih =>
    unfold firstBadArg at h
    by_cases hf : looksLikeStdin fs f = true
    · rw [if_pos hf] at h
      injection h with h
      subst h
      exact ⟨List.mem_cons_self _ _, hf⟩
    · rw [if_neg hf] at h
      obtain ⟨hm, hb⟩ := ih h
      exact ⟨List.mem_cons_of_mem _ hm, hb⟩

/-- Claim C6: with more than one argument, an argument that is non-empty but
neither an existing file nor a directory makes `doLint` return an E100 naming
that argument, with nothing linted and no linter call made; `main` reports
the error and exits 2. -/
theorem doLint_bad_argument_exits_two (env : MainEnv) (a : String)
    (hlen : 1 < env.args.length)
    (hbad : firstBadArg env.lintEnv.fs env.args = some a)
    (hcfg : env.newConfig = none)
    (hflags : validateFlags env = none)
    (hini : env.fromIni = none)
    (hlin : env.newLinter = none) :
    a ∈ env.args ∧ looksLikeStdin env.lintEnv.fs a = true ∧
    doLint env.lintEnv env.args env.flagsGlob =
      ⟨[], some (.e100 "doLint" ("argument '" ++ a ++ "' does not exist")), []⟩ ∧
    mainRun env
      = .exited 2 [.e100 "doLint" ("argument '" ++ a ++ "' does not exist")] := by
  obtain ⟨hmem, hstdin⟩ := firstBadArg_mem _ _ _ hbad
  have hdo : doLint env.lintEnv env.args env.flagsGlob =
      ⟨[], some (.e100 "doLint" ("argument '" ++ a ++ "' does not exist")), []⟩ := by
    rcases hargs : env.args with _ | ⟨a0, _ | ⟨a1, rest2⟩⟩
    · rw [hargs] at hlen
      simp at hlen
    · rw [hargs] at hlen
      simp at hlen
    · rw [hargs] at hbad
      simp only [doLint, List.isEmpty_cons, Bool.false_and, Bool.false_eq_true,
        if_false]
      exact lintArgsLoop_bad env.lintEnv env.flagsGlob _ [] a hbad
  have h1 : env.args.isEmpty = false := by
    cases henv : env.args with
    | nil => rw [henv] at hlen; simp at hlen
    | cons x xs => simp
  have h2 : (env.args.length == 1) = false := by
    have hne : env.args.length ≠ 1 := by omega
    simp [hne]
  have hmain : mainRun env
      = .exited 2 [.e100 "doLint" ("argument '" ++ a ++ "' does not exist")] := by
    simp [mainRun, hcfg, h1, h2, hflags, hini, hlin, hdo]
  exact ⟨hmem, hstdin, hdo, hmain⟩

/-- The concrete C6 environment: two arguments, the second of which neither
exists nor is a directory. -/
def c6Env : MainEnv :=
  { lintEnv :=
      { fs := ⟨fun s => s == "good.md", fun _ => false⟩
        lintString := fun _ => ([], none)
        lintFiles := fun _ _ => ([⟨"good.md"⟩], none)
        stdinData := .ok "" }
    args := ["good.md", "missing.md"]
    statPiped := false
    flagsGlob := ""
    flagsNoExit := false
    flagsPath := ""
    commands := ["ls-config"]
    doCommand := fun _ => none
    newConfig := none
    fromIni := none
    newLinter := none
    printAlerts := fun _ => .ok false }

/-- Claim C6 witness: `vale good.md missing.md` with only `good.md` on disk
lints nothing, reports the E100 naming `missing.md`, and exits 2. -/
theorem doLint_bad_argument_exits_two_witness :
    doLint c6Env.lintEnv c6Env.args c6Env.flagsGlob =
      ⟨[], some (.e100 "doLint" ("argument '" ++ "missing.md" ++ "' does not exist")), []⟩ ∧
    mainRun c6Env
      = .exited 2 [.e100 "doLint" ("argument '" ++ "missing.md" ++ "' does not exist")] := by
  have h := doLint_bad_argument_exits_two c6Env "missing.md"
    (by decide) (by rfl) rfl rfl rfl rfl
  exact ⟨h.2.2.1, h.2.2.2⟩

end Vale
